import Mathlib

/-!
# Verification of the roro-analiza dedup/reshuffle engine

Shallow embedding of the corpus deduplication and deterministic reshuffling
engine of `src/roro_module/shuffler_db.py` (class `RoRoShufflerDatabase`) and
of the in-memory packer of `src/roro_module/shuffler.py` (class `RoRoShuffler`).

Python strings are modelled as Lean `String`; all character-level operations
(`str.strip`, `str.lower`, `str.split`, `re.sub(r"\s+", " ", ·)`) are spelled
out over `String.data` so that every definition evaluates by `decide`/`rfl`.
Python's Unicode-aware `str.isalpha` and whitespace classes are approximated
by Lean's ASCII `Char.isAlpha`/whitespace set; none of the verified claims
depends on the exact alphabet.
-/

/-- Python whitespace test, as used by `str.strip` / `str.split` /
the `\s` class of `re` (restricted to the common ASCII whitespace). -/
def isWS (c : Char) : Bool :=
  c == ' ' || c == '\t' || c == '\n' || c == '\r'

/-- Python `s.strip()`: drop leading and trailing whitespace. -/
def strip (s : String) : String :=
  ⟨((s.data.dropWhile isWS).reverse.dropWhile isWS).reverse⟩

/-- Python `s.lower()` (ASCII approximation). -/
def lowerStr (s : String) : String :=
  ⟨s.data.map Char.toLower⟩

/-- Maximal runs of non-whitespace characters (helper for `splitWS`). -/
def splitWSAux : List Char → List Char → List (List Char)
  | [], acc => if acc.isEmpty then [] else [acc.reverse]
  | c :: cs, acc =>
    if isWS c then
      if acc.isEmpty then splitWSAux cs [] else acc.reverse :: splitWSAux cs []
    else splitWSAux cs (c :: acc)

/-- Python `s.split()` with no argument: split on whitespace runs, no empty
tokens. -/
def splitWS (s : String) : List String :=
  (splitWSAux s.data []).map String.mk

/-- `" ".join(l)` (also the model of `String.intercalate` for a space). -/
def joinSep (sep : String) : List String → String
  | [] => ""
  | [x] => x
  | x :: y :: xs => x ++ sep ++ joinSep sep (y :: xs)

/-- A token counts as a word when it contains at least one alphabetic
character (`any(ch.isalpha() for ch in tok)`). -/
def hasAlpha (t : String) : Bool :=
  t.data.any Char.isAlpha

/-- `RoRoShufflerDatabase._word_count` / `RoRoShuffler._word_count`:
number of whitespace-delimited tokens containing at least one alphabetic
character. -/
def word_count (s : String) : Nat :=
  ((splitWS s).filter hasAlpha).length

/-- `RoRoShufflerDatabase._norm_sent` / `RoRoShuffler._norm_sent`:
`s.strip().lower()` with every whitespace run collapsed to a single space
(`re.sub(r"\s+", " ", s)`; on a stripped string this equals
`" ".join(s.split())`). -/
def norm_sent (s : String) : String :=
  joinSep " " (splitWS (lowerStr (strip s)))

/-- Number of alphabetic characters, `sum(ch.isalpha() for ch in s)`. -/
def letterCount (s : String) : Nat :=
  s.data.countP Char.isAlpha

/-- The rejection reasons of `RoRoShufflerDatabase._is_good_sentence`. -/
inductive Reason where
  | too_short
  | too_few_letters
  | too_few_words
  | mostly_non_letters
  | boilerplate
deriving DecidableEq

/-- The fixed boilerplate set `bad_exact` of `_is_good_sentence`. -/
def bad_exact : List String :=
  ["citește", "citeste", "continua", "continuă"]

/-- `RoRoShufflerDatabase._is_good_sentence`: `none` means accepted,
`some r` means rejected with reason `r`.  The ratio test
`letters / max(len(s), 1) < 0.50` is expressed exactly as
`2 * letters < len(s)` (at that point `len(s) ≥ 10 > 0`, and the two
inequalities agree on integers). -/
def is_good_sentence (s0 : String) : Option Reason :=
  let s := strip s0
  if s.data.length < 10 then some .too_short
  else if letterCount s < 7 then some .too_few_letters
  else if ((splitWS s).filter hasAlpha).length < 2 then some .too_few_words
  else if 2 * letterCount s < s.data.length then some .mostly_non_letters
  else if norm_sent s ∈ bad_exact then some .boilerplate
  else none

example : strip "  ab c  " = "ab c" := by decide
example : word_count "Un doi trei 77 !" = 3 := by decide
example : norm_sent " Un   DOI  trei " = "un doi trei" := by decide
example : is_good_sentence "ab, c 123" = some .too_short := by decide
example : is_good_sentence "a?b!c.d,e:f;g-hij" = some .too_few_words := by decide
example : is_good_sentence "Consiliul a aprobat bugetul." = none := by decide
example : is_good_sentence "12345 abc 67890" = some .too_few_letters := by decide
example : is_good_sentence "abcdefg h 123456789012" = some .mostly_non_letters := by decide

/-! ## Hashing and order keys

`_sent_hash` calls `hashlib.blake2b(s.encode("utf-8"), digest_size=16)` and
`_sent_randkey` calls `hashlib.blake2b(h + seed_bytes, digest_size=8)`.
`hashlib` is an external library, so the two digests are kept abstract as a
`Hashers` parameter (byte lists in, byte lists out); every theorem below holds
for all digest functions.  The byte-level plumbing around them
(`s.encode("utf-8")`, `int(seed).to_bytes(8, "little", signed=True)`,
`int.from_bytes(y, "little", signed=True)`) is modelled exactly. -/

/-- UTF-8 encoding of one code point (`str.encode("utf-8")`, per character). -/
def utf8Char (c : Char) : List Nat :=
  let n := c.toNat
  if n < 128 then [n]
  else if n < 2048 then [192 + n / 64, 128 + n % 64]
  else if n < 65536 then [224 + n / 4096, 128 + n / 64 % 64, 128 + n % 64]
  else [240 + n / 262144, 128 + n / 4096 % 64, 128 + n / 64 % 64, 128 + n % 64]

/-- `s.encode("utf-8")` as a list of byte values. -/
def utf8Bytes (s : String) : List Nat :=
  s.data.flatMap utf8Char

/-- The two blake2b digests used by the store, abstracted: `b16` stands for
`blake2b(·, digest_size=16).digest()` and `b8` for
`blake2b(·, digest_size=8).digest()`. -/
structure Hashers where
  b16 : List Nat → List Nat
  b8 : List Nat → List Nat

/-- `RoRoShufflerDatabase._sent_hash`: the 16-byte content hash of the
normalized sentence's UTF-8 bytes. -/
def sent_hash (H : Hashers) (s : String) : List Nat :=
  H.b16 (utf8Bytes s)

/-- `int(seed).to_bytes(8, "little", signed=True)`: the little-endian
two's-complement bytes of the seed.  (Python raises `OverflowError` outside
`[-2^63, 2^63)`; the model reduces mod `2^64`, which agrees with the source
on the whole domain the source accepts.) -/
def seedBytes (seed : Int) : List Nat :=
  let m := (seed % (2 ^ 64 : Int)).toNat
  [m % 256, m / 2 ^ 8 % 256, m / 2 ^ 16 % 256, m / 2 ^ 24 % 256,
   m / 2 ^ 32 % 256, m / 2 ^ 40 % 256, m / 2 ^ 48 % 256, m / 2 ^ 56 % 256]

/-- `int.from_bytes(y, "little", signed=True)` for an 8-byte digest `y`:
the signed 64-bit integer with those little-endian bytes. -/
def fromBytesLE8Signed (bs : List Nat) : Int :=
  let u : Nat := (bs.foldr (fun b acc => b % 256 + 256 * acc) 0) % 2 ^ 64
  if u < 2 ^ 63 then (u : Int) else (u : Int) - 2 ^ 64

/-- `RoRoShufflerDatabase._sent_randkey`: the order key, a signed 64-bit
integer decoded from the keyed 8-byte digest of `content_hash || seedBytes`. -/
def sent_randkey (H : Hashers) (seed : Int) (h : List Nat) : Int :=
  fromBytesLE8Signed (H.b8 (h ++ seedBytes seed))

/-! ## The per-group sentence store

One row of the sqlite table `sents(subpath, h, r, text, cnt)`, restricted to
one group (`subpath`): the store is an association list keyed by the content
hash `h`, in insertion order. -/

/-- One stored sentence record: order key `r`, first-seen surface form
`text`, occurrence count `cnt`. -/
structure SentRow where
  r : Int
  text : String
  cnt : Nat
deriving DecidableEq

/-- A single group's slice of the `sents` table. -/
abbrev GStore := List (List Nat × SentRow)

/-- The upsert
`INSERT INTO sents(subpath, h, r, text, cnt) VALUES(?, ?, ?, ?, 1)
 ON CONFLICT(subpath, h) DO UPDATE SET cnt = cnt + 1`,
restricted to one group: a conflicting row keeps its `r` and `text` and
increments `cnt`; otherwise a fresh row with `cnt = 1` is appended. -/
def upsert (h : List Nat) (r : Int) (s : String) : GStore → GStore
  | [] => [(h, ⟨r, s, 1⟩)]
  | (h', row) :: rest =>
    if h' = h then (h', ⟨row.r, row.text, row.cnt + 1⟩) :: rest
    else (h', row) :: upsert h r s rest

/-- The acceptance decision of the per-sentence loop of
`RoRoShufflerDatabase.run` (lines 96–113): strip the raw sentence, drop it if
empty, drop it if `_is_good_sentence` rejects it, drop it if its normalized
form is empty; otherwise the stripped form is stored. -/
def acceptSent (raw : String) : Option String :=
  let s := strip raw
  if s = "" then none
  else match is_good_sentence s with
    | some _ => none
    | none => if norm_sent s = "" then none else some s

/-- One iteration of the sentence loop of `RoRoShufflerDatabase.run`
(lines 96–122) acting on a single group's store: accepted sentences are
upserted under `h = _sent_hash(_norm_sent(s))` with order key
`_sent_randkey(h)`. -/
def procSent (H : Hashers) (seed : Int) (st : GStore) (raw : String) : GStore :=
  match acceptSent raw with
  | none => st
  | some s =>
    upsert (sent_hash H (norm_sent s)) (sent_randkey H seed (sent_hash H (norm_sent s))) s st

/-- Processing one group's raw sentence stream from a freshly reset store. -/
def runGroup (H : Hashers) (seed : Int) (raws : List String) : GStore :=
  raws.foldl (procSent H seed) []

/-- The accepted (stripped) sentences of a raw stream, in order. -/
def acceptedOf (raws : List String) : List String :=
  raws.filterMap acceptSent

/-- Splitting a list into batches of `bs` (`range(0, len(idxs), batch_size)`
in `RoRoShufflerDatabase.run`); the accumulator `acc` holds the current
batch, `room` how many of its `bs` slots are free.  (`bs = 0` would raise
`ValueError` in the source; the model is only used with `0 < bs`.) -/
def chunkAux (bs : Nat) : List α → List α → List (List α)
  | [], acc => if acc.isEmpty then [] else [acc]
  | x :: xs, acc =>
    if acc.length + 1 < bs then chunkAux bs xs (acc ++ [x])
    else (acc ++ [x]) :: chunkAux bs xs []

/-- `[idxs[start:start+bs] for start in range(0, len(idxs), bs)]`. -/
def chunkList (bs : Nat) (l : List α) : List (List α) :=
  chunkAux bs l []

/-- The same group run, but with the raw sentence stream delivered in batches
of `bs`, as `RoRoShufflerDatabase.run` does. -/
def runGroupBatched (H : Hashers) (seed : Int) (bs : Nat) (raws : List String) : GStore :=
  (chunkList bs raws).foldl (fun st batch => batch.foldl (procSent H seed) st) []

example : chunkList 2 [1, 2, 3, 4, 5] = [[1, 2], [3, 4], [5]] := by decide
example : chunkList 2 ([] : List Nat) = [] := by decide

/-! ## Chunk packing

Two packers exist in the repository.  `RoRoShufflerDatabase.run`
(lines 186–217) always appends the incoming sentence and flushes as soon as
the running word count reaches or exceeds the target.
`RoRoShuffler._make_texts_close_to_target` (shuffler.py lines 177–228)
instead decides between flushing with or without the incoming sentence by
comparing distances to the target. -/

/-- The packing loop of `RoRoShufflerDatabase.run` (lines 210–217): for each
text, `cur_parts.append(text.strip()); cur_words += wc;
if cur_words >= target: flush_text()`, with a final `flush_text()` that
writes the remaining buffer only when it is non-empty. -/
def dbPackGo (target : Nat) : List String → List String → Nat → List (List String)
  | [], cur, _ => if cur.isEmpty then [] else [cur]
  | t :: rest, cur, curW =>
    let cur2 := cur ++ [strip t]
    let w2 := curW + word_count t
    if target ≤ w2 then cur2 :: dbPackGo target rest [] 0
    else dbPackGo target rest cur2 w2

/-- The output chunks of the database pipeline's packing loop, each chunk as
its list of sentences. -/
def dbPack (target : Nat) (sents : List String) : List (List String) :=
  dbPackGo target sents [] 0

/-- `RoRoShuffler._make_texts_close_to_target` (lines 177–228), as a
recursion over the remaining sentences with the current buffer `cur` and its
word count `curW`.  In Python, when a sentence is rejected at a non-empty
buffer the index is not advanced, so the same sentence is re-examined with
an empty buffer; with `cur = []` that next decision is immediate, and the
final `else` branch inlines it (cases: the sentence now fits below target /
is accepted at the empty buffer and flushed alone / overshoots even the
empty buffer — `after_diff > before_diff = target`, i.e. its word count
exceeds `2 * target` — and is silently dropped, the `else: i += 1` arm). -/
def makeGo (target : Nat) : List String → List String → Nat → List (List String)
  | [], cur, _ => if cur.isEmpty then [] else [cur]
  | s0 :: rest, cur, curW =>
    let s := strip s0
    if s = "" then makeGo target rest cur curW
    else
      let w := word_count s
      let after := curW + w
      if after < target then makeGo target rest (cur ++ [s]) after
      else if ((target : Int) - after).natAbs ≤ ((target : Int) - curW).natAbs then
        (cur ++ [s]) :: makeGo target rest [] 0
      else if cur.isEmpty then
        makeGo target rest [] 0
      else if w < target then
        cur :: makeGo target rest [s] w
      else if ((target : Int) - w).natAbs ≤ (target : Int).natAbs then
        cur :: [s] :: makeGo target rest [] 0
      else
        cur :: makeGo target rest [] 0

/-- The texts produced by `RoRoShuffler._make_texts_close_to_target`, each
as its list of sentences (the generator yields `" ".join(cur)`). -/
def makeTexts (target : Nat) (sentences : List String) : List (List String) :=
  makeGo target sentences [] 0

example : dbPack 10 [] = [] := by decide
example : dbPack 10 ["a b c", "d e f g h", "i j"] = [["a b c", "d e f g h", "i j"]] := by decide
example : dbPack 5 ["a b c", "d e f g h", "i j"] = [["a b c", "d e f g h"], ["i j"]] := by decide
-- spec §8 tie-break examples: target 10, buffer at 8, incoming 3 words → flush at 11;
-- target 10, buffer at 8, incoming 1 word → keep accumulating.
example : makeGo 10 ["un doi trei"] ["a b c d e f g h"] 8
    = [["a b c d e f g h", "un doi trei"]] := by decide
example : makeGo 10 ["unu"] ["a b c d e f g h"] 8
    = [["a b c d e f g h", "unu"]] := by decide

/-! ## Ordered retrieval and diagnostics -/

/-- Insert into a sorted list, `le` first (stable insertion). -/
def insertLe (le : α → α → Bool) (x : α) : List α → List α
  | [] => [x]
  | y :: ys => if le x y then x :: y :: ys else y :: insertLe le x ys

/-- Insertion sort by `le` (a deterministic model of sqlite's `ORDER BY`). -/
def sortLe (le : α → α → Bool) (l : List α) : List α :=
  l.foldr (insertLe le) []

/-- `SELECT text FROM sents WHERE subpath = ? ORDER BY r` on one group's
store: the rows sorted by ascending order key. -/
def orderedRows (st : GStore) : GStore :=
  sortLe (fun a b => decide (a.2.r ≤ b.2.r)) st

/-- The deterministically ordered sentence stream of one group. -/
def orderedTexts (st : GStore) : List String :=
  (orderedRows st).map (fun p => p.2.text)

/-- `SELECT cnt, text FROM sents WHERE subpath = ? ORDER BY cnt DESC
LIMIT 100` on one group's store. -/
def top_dups (st : GStore) : List (Nat × String) :=
  ((sortLe (fun a b => decide (b.2.cnt ≤ a.2.cnt)) st).map (fun p => (p.2.cnt, p.2.text))).take 100

/-- The unguarded `top100[0]` of `RoRoShufflerDatabase.run` (line 172):
`none` models the `IndexError` that aborts the run when the group stored no
sentences. -/
def mostCommon (st : GStore) : Option (Nat × String) :=
  (top_dups st).head?

/-! ## The full table and group routing

The sqlite table `sents` has `PRIMARY KEY(subpath, h)`; the full store is an
association list keyed by `(subpath, h)`. -/

/-- The full `sents` table across groups. -/
abbrev Store := List ((String × List Nat) × SentRow)

/-- The upsert of `RoRoShufflerDatabase.run`, keyed by `(subpath, h)`. -/
def upsertG (g : String) (h : List Nat) (r : Int) (s : String) : Store → Store
  | [] => [((g, h), ⟨r, s, 1⟩)]
  | (k, row) :: rest =>
    if k = (g, h) then (k, ⟨row.r, row.text, row.cnt + 1⟩) :: rest
    else (k, row) :: upsertG g h r s rest

/-- One sentence-loop iteration on the full table, for group `g`. -/
def procSentG (H : Hashers) (seed : Int) (g : String) (st : Store) (raw : String) : Store :=
  match acceptSent raw with
  | none => st
  | some s =>
    upsertG g (sent_hash H (norm_sent s)) (sent_randkey H seed (sent_hash H (norm_sent s))) s st

/-- `DELETE FROM sents WHERE subpath = ?` (run, line 74). -/
def resetGroup (g : String) (st : Store) : Store :=
  st.filter (fun p => !(p.1.1 == g))

/-- Processing one group inside `RoRoShufflerDatabase.run`: reset the group's
partition, then upsert its accepted sentence stream. -/
def runGroupG (H : Hashers) (seed : Int) (g : String) (st : Store) (raws : List String) : Store :=
  raws.foldl (procSentG H seed g) (resetGroup g st)

/-- The group loop of `RoRoShufflerDatabase.run` over `(group, stream)`
pairs, starting from an empty table. -/
def runGroups (H : Hashers) (seed : Int) (work : List (String × List String)) : Store :=
  work.foldl (fun st gw => runGroupG H seed gw.1 st gw.2) []

/-! ## Group routing (`_subpath_from_rel_path`) -/

/-- An entry as the shuffler sees it: `getattr(e, "text", "")` (a missing
text is the empty string) and `e.meta.get("rel_path", "")` (a missing
relative path is `none`, read back as `""`). -/
structure Entry where
  text : String
  relPath : Option String
deriving DecidableEq

/-- Split a character list at `/` (helper for `pathParts`). -/
def splitSlashAux : List Char → List Char → List (List Char)
  | [], acc => [acc.reverse]
  | c :: cs, acc =>
    if c = '/' then acc.reverse :: splitSlashAux cs [] else splitSlashAux cs (c :: acc)

/-- `list(Path(rel_path).parts)` for a relative POSIX path: the non-empty
components, with `pathlib`'s `.` components removed. -/
def pathParts (s : String) : List String :=
  ((splitSlashAux s.data []).map String.mk).filter (fun p => !(p == "") && !(p == "."))

/-- `RoRoShufflerDatabase._subpath_from_rel_path` (lines 241–260): keep the
folder part of the path up to the configured level; an empty path maps to
`(root)`.  The result is the list of kept components. -/
def subpath_from_rel_path (rel_path : String) (level : Int) : List String :=
  match pathParts rel_path with
  | [] => ["(root)"]
  | p :: ps =>
    let folders := if ps.isEmpty then [p] else (p :: ps).dropLast
    if level = 0 then folders.take 1
    else if level = -1 then folders
    else if 0 < level then folders.take (min (level.toNat + 1) folders.length)
    else ["(root)"]

/-- The group (subpath) an entry is routed to, as the joined path string. -/
def entryGroup (level : Int) (e : Entry) : String :=
  joinSep "/" (subpath_from_rel_path (e.relPath.getD "") level)

example : subpath_from_rel_path "a/b/c.json" (-1) = ["a", "b"] := by decide
example : subpath_from_rel_path "a/b/c.json" 0 = ["a"] := by decide
example : subpath_from_rel_path "a/b/c/d.json" 1 = ["a", "b"] := by decide
example : subpath_from_rel_path "a.json" (-1) = ["a.json"] := by decide
example : subpath_from_rel_path "" (-1) = ["(root)"] := by decide
example : subpath_from_rel_path "a/b/c.json" (-2) = ["(root)"] := by decide

/-! ## The full run (`RoRoShufflerDatabase.run`), store part

The segmenter (`spacy`) is external: it is a parameter `seg` mapping one
document's text to its ordered sentence list (`doc.sents`). -/

/-- The raw sentence stream of one group's entry list, as produced by
`_iter_sent_texts_batch` over batches of `batch_size` entries: per batch,
empty texts are dropped (`texts = [t for t in texts if t]`) and the
segmenter is applied to the remaining documents in order. -/
def groupRawSents (seg : String → List String) (bs : Nat) (es : List Entry) : List String :=
  (chunkList bs es).flatMap (fun batch =>
    ((batch.map Entry.text).filter (fun t => !(t == ""))).flatMap seg)

/-- First-occurrence deduplication (the key set of the `defaultdict`
`folder_to_idxs`, in insertion order). -/
def dedupFirstAux (seen : List String) : List String → List String
  | [] => []
  | x :: xs =>
    if seen.contains x then dedupFirstAux seen xs
    else x :: dedupFirstAux (seen ++ [x]) xs

/-- `RoRoShufflerDatabase.run`, store part: route entries to groups, then for
each group in sorted order (`sorted(folder_to_idxs.keys())`) reset its
partition and upsert its accepted sentence stream. -/
def runFull (H : Hashers) (seg : String → List String) (seed : Int) (level : Int) (bs : Nat)
    (entries : List Entry) : Store :=
  (sortLe (fun a b => decide (a ≤ b)) (dedupFirstAux [] (entries.map (entryGroup level)))).foldl
    (fun st g =>
      runGroupG H seed g st (groupRawSents seg bs (entries.filter (fun e => entryGroup level e == g))))
    []

/-- A concrete `Hashers` instance for witnesses: both digests are the
identity on the input bytes (every theorem over `Hashers` holds for it). -/
def idHashers : Hashers :=
  ⟨fun l => l, fun l => l⟩

/-! ## C1: chunk packing -/

/-- In the rejection case (appending reaches the target, the after-distance
is strictly worse, buffer non-empty), `_make_texts_close_to_target` flushes
the buffer and re-examines the same sentence with an empty buffer. -/
theorem makeGo_reject (target : Nat) (s0 : String) (rest cur : List String) (curW : Nat)
    (hstrip : strip s0 = s0) (hne : s0 ≠ "") (hcur : cur ≠ [])
    (hov : ¬ curW + word_count s0 < target)
    (hfar : ¬ ((target : Int) - (curW + word_count s0 : Nat)).natAbs
        ≤ ((target : Int) - (curW : Nat)).natAbs) :
    makeGo target (s0 :: rest) cur curW = cur :: makeGo target (s0 :: rest) [] 0 := by
  have hcur' : cur.isEmpty = false := by
    cases cur with
    | nil => exact absurd rfl hcur
    | cons a l => rfl
  have hfar' : ¬ ((target : Int) - ((curW : Int) + (word_count s0 : Int))).natAbs
      ≤ ((target : Int) - (curW : Int)).natAbs := by
    push_cast at hfar
    exact hfar
  simp [makeGo, hstrip, hne, hov, hfar', hcur']
  split <;> [rfl; skip]
  split <;> rfl

/-- C1 (amended). For a (pre-stripped, non-empty) incoming sentence whose
word count makes a non-empty buffer reach or exceed the target:
`RoRoShuffler._make_texts_close_to_target` appends and flushes exactly when
`|target - after| ≤ |target - before|` (ties favor inclusion) and otherwise
flushes the buffer without the sentence, which becomes the first sentence of
the next buffer; the packing loop of `RoRoShufflerDatabase.run` always
appends the sentence and flushes. -/
theorem C1_best_of_two (target : Nat) (s0 : String) (rest cur : List String) (curW : Nat)
    (hstrip : strip s0 = s0) (hne : s0 ≠ "") (hcur : cur ≠ [])
    (hge : target ≤ curW + word_count s0) :
    (makeGo target (s0 :: rest) cur curW =
      if ((target : Int) - (curW + word_count s0 : Nat)).natAbs
          ≤ ((target : Int) - (curW : Nat)).natAbs
      then (cur ++ [s0]) :: makeGo target rest [] 0
      else cur :: makeGo target (s0 :: rest) [] 0)
    ∧ dbPackGo target (s0 :: rest) cur curW = (cur ++ [s0]) :: dbPackGo target rest [] 0 := by
  constructor
  · by_cases hnear : ((target : Int) - (curW + word_count s0 : Nat)).natAbs
        ≤ ((target : Int) - (curW : Nat)).natAbs
    · rw [if_pos hnear]
      have hnear' : ((target : Int) - ((curW : Int) + (word_count s0 : Int))).natAbs
          ≤ ((target : Int) - (curW : Int)).natAbs := by
        push_cast at hnear
        exact hnear
      have hov : ¬ curW + word_count s0 < target := by omega
      simp [makeGo, hstrip, hne, hov, hnear']
    · rw [if_neg hnear]
      exact makeGo_reject target s0 rest cur curW hstrip hne hcur (by omega) hnear
  · have hge' : target ≤ curW + word_count s0 := hge
    simp [dbPackGo, hstrip, hge']

/-- Witness for `C1_best_of_two`: the spec's own tie-break example, target
10, buffer at 8 words, incoming 3-word sentence (included by both packers,
flushed at 11 words). -/
theorem C1_best_of_two_witness :
    (makeGo 10 ["un doi trei"] ["a b c d e f g h"] 8 =
      if ((10 : Int) - (8 + word_count "un doi trei" : Nat)).natAbs
          ≤ ((10 : Int) - ((8 : Nat) : Int)).natAbs
      then (["a b c d e f g h"] ++ ["un doi trei"]) :: makeGo 10 [] [] 0
      else ["a b c d e f g h"] :: makeGo 10 ["un doi trei"] [] 0)
    ∧ dbPackGo 10 ["un doi trei"] ["a b c d e f g h"] 8
      = (["a b c d e f g h"] ++ ["un doi trei"]) :: dbPackGo 10 [] [] 0 :=
  C1_best_of_two 10 "un doi trei" [] ["a b c d e f g h"] 8 (by decide) (by decide)
    (by decide) (by decide)

/-- C1 counterexample. On the stream `[8-word sentence, 10-word sentence]`
with target 10, the best-of-two rule (as implemented by
`RoRoShuffler._make_texts_close_to_target`) flushes the buffer without the
10-word sentence (`after_diff = 8 > 2 = before_diff`), but the packing loop
of `RoRoShufflerDatabase.run` includes it and flushes at 18 words: the
claimed iff fails for the database pipeline's chunk packing. -/
theorem C1_counterexample :
    makeTexts 10 ["a b c d e f g h", "a b c d e f g h i j"]
      = [["a b c d e f g h"], ["a b c d e f g h i j"]]
    ∧ dbPack 10 ["a b c d e f g h", "a b c d e f g h i j"]
      = [["a b c d e f g h", "a b c d e f g h i j"]] := by
  constructor <;> decide

/-! ## C2: deterministic ordering -/

/-- Folding a function batch-by-batch over `chunkAux` is folding it over the
pending batch followed by the rest of the stream. -/
theorem chunkAux_foldl {α β : Type _} (bs : Nat) (f : β → α → β) (l : List α) :
    ∀ (acc : List α) (st : β),
      (chunkAux bs l acc).foldl (fun st batch => batch.foldl f st) st = (acc ++ l).foldl f st := by
  induction l with
  | nil =>
    intro acc st
    cases acc with
    | nil => simp [chunkAux]
    | cons a l => simp [chunkAux]
  | cons x xs ih =>
    intro acc st
    by_cases hroom : acc.length + 1 < bs
    · rw [show chunkAux bs (x :: xs) acc = chunkAux bs xs (acc ++ [x]) by
        simp [chunkAux, hroom]]
      rw [ih (acc ++ [x]) st]
      simp
    · rw [show chunkAux bs (x :: xs) acc = (acc ++ [x]) :: chunkAux bs xs [] by
        simp [chunkAux, hroom]]
      rw [List.foldl_cons, ih [] ((acc ++ [x]).foldl f st)]
      simp [List.foldl_append]

/-- `upsert` keeps the invariant that every row's order key is the keyed
hash of its own content hash. -/
theorem upsert_randkey (H : Hashers) (seed : Int) (h : List Nat) (s : String) (st : GStore)
    (hst : ∀ p ∈ st, p.2.r = sent_randkey H seed p.1) :
    ∀ p ∈ upsert h (sent_randkey H seed h) s st, p.2.r = sent_randkey H seed p.1 := by
  induction st with
  | nil => simp [upsert]
  | cons a rest ih =>
    obtain ⟨h', row⟩ := a
    by_cases hh : h' = h
    · intro p hp
      rw [upsert, if_pos hh, List.mem_cons] at hp
      rcases hp with hp | hp
      · subst hp
        have := hst (h', row) (by simp)
        simpa [hh] using this
      · exact hst p (List.mem_cons_of_mem _ hp)
    · intro p hp
      rw [upsert, if_neg hh, List.mem_cons] at hp
      rcases hp with hp | hp
      · subst hp
        exact hst (h', row) (by simp)
      · exact ih (fun q hq => hst q (List.mem_cons_of_mem _ hq)) p hp

/-- The sentence loop keeps the order-key invariant. -/
theorem foldl_procSent_randkey (H : Hashers) (seed : Int) (raws : List String) :
    ∀ st : GStore, (∀ p ∈ st, p.2.r = sent_randkey H seed p.1) →
      ∀ p ∈ raws.foldl (procSent H seed) st, p.2.r = sent_randkey H seed p.1 := by
  induction raws with
  | nil => exact fun st hst => hst
  | cons raw rest ih =>
    intro st hst
    rw [List.foldl_cons]
    refine ih (procSent H seed st raw) ?_
    unfold procSent
    cases acceptSent raw with
    | none => exact hst
    | some s => exact upsert_randkey H seed _ s st hst

/-- C2: every stored row's order key is
`signedInt64(keyedHash(content_hash || seedBytes))`, a function of
`(content_hash, seed)` alone, and the stored table does not depend on the
batch boundaries the stream was delivered with — hence two runs with
identical inputs, seed and configuration order each group identically. -/
theorem C2_order_key (H : Hashers) (seed : Int) (raws : List String) (bs : Nat)
    (hbs : 0 < bs) :
    (∀ p ∈ runGroup H seed raws, p.2.r = sent_randkey H seed p.1)
    ∧ runGroupBatched H seed bs raws = runGroup H seed raws := by
  refine ⟨foldl_procSent_randkey H seed raws [] (by simp), ?_⟩
  unfold runGroupBatched runGroup chunkList
  rw [chunkAux_foldl bs (procSent H seed) raws [] []]
  rfl

/-- Witness for `C2_order_key` at a concrete two-sentence stream. -/
theorem C2_order_key_witness :
    (∀ p ∈ runGroup idHashers 42
        ["Consiliul a aprobat bugetul local.", "Alta propozitie suficient de buna."],
      p.2.r = sent_randkey idHashers 42 p.1)
    ∧ runGroupBatched idHashers 42 512
        ["Consiliul a aprobat bugetul local.", "Alta propozitie suficient de buna."]
      = runGroup idHashers 42
        ["Consiliul a aprobat bugetul local.", "Alta propozitie suficient de buna."] :=
  C2_order_key idHashers 42
    ["Consiliul a aprobat bugetul local.", "Alta propozitie suficient de buna."] 512 (by decide)

/-! ## C4: seed noninterference on the dedup set -/

/-- The seed-independent part of a row: content hash, stored text,
occurrence count (everything but the order key). -/
def rowShape (p : List Nat × SentRow) : List Nat × String × Nat :=
  (p.1, p.2.text, p.2.cnt)

/-- `upsert` acts identically, up to order keys, on stores that agree up to
order keys. -/
theorem upsert_rowShape (h : List Nat) (r1 r2 : Int) (s : String) :
    ∀ st1 st2 : GStore, st1.map rowShape = st2.map rowShape →
      (upsert h r1 s st1).map rowShape = (upsert h r2 s st2).map rowShape := by
  intro st1
  induction st1 with
  | nil =>
    intro st2 hst
    have : st2 = [] := by
      cases st2 with
      | nil => rfl
      | cons b t2 => simp at hst
    subst this
    simp [upsert, rowShape]
  | cons a t1 ih =>
    intro st2 hst
    cases st2 with
    | nil => simp at hst
    | cons b t2 =>
      obtain ⟨h1, row1⟩ := a
      obtain ⟨h2, row2⟩ := b
      simp only [List.map_cons, List.cons.injEq, rowShape, Prod.mk.injEq] at hst
      obtain ⟨⟨hh, htext, hcnt⟩, htail⟩ := hst
      by_cases hkey : h1 = h
      · rw [upsert, if_pos hkey, upsert, if_pos (by rw [← hh]; exact hkey)]
        simp only [List.map_cons, rowShape, List.cons.injEq, Prod.mk.injEq]
        refine ⟨⟨hh, htext, ?_⟩, htail⟩
        rw [hcnt]
      · rw [upsert, if_neg hkey, upsert, if_neg (by rw [← hh]; exact hkey)]
        simp only [List.map_cons, rowShape, List.cons.injEq, Prod.mk.injEq]
        exact ⟨⟨hh, htext, hcnt⟩, ih t2 htail⟩

/-- One sentence-loop iteration acts identically, up to order keys, under
any two seeds. -/
theorem procSent_rowShape (H : Hashers) (seed1 seed2 : Int) (raw : String)
    (st1 st2 : GStore) (hst : st1.map rowShape = st2.map rowShape) :
    (procSent H seed1 st1 raw).map rowShape = (procSent H seed2 st2 raw).map rowShape := by
  unfold procSent
  cases acceptSent raw with
  | none => exact hst
  | some s => exact upsert_rowShape _ _ _ s st1 st2 hst

/-- C4: two runs of a group's stream under any two seeds store the same
records — same content hashes, same first-seen texts, same occurrence
counts, in the same positions — differing at most in order keys (the
content hash `_sent_hash` does not involve the seed). -/
theorem C4_seed_noninterference (H : Hashers) (seed1 seed2 : Int) (raws : List String) :
    (runGroup H seed1 raws).map rowShape = (runGroup H seed2 raws).map rowShape := by
  suffices hgen : ∀ st1 st2 : GStore, st1.map rowShape = st2.map rowShape →
      (raws.foldl (procSent H seed1) st1).map rowShape
        = (raws.foldl (procSent H seed2) st2).map rowShape by
    exact hgen [] [] rfl
  induction raws with
  | nil => exact fun st1 st2 hst => hst
  | cons raw rest ih =>
    intro st1 st2 hst
    exact ih _ _ (procSent_rowShape H seed1 seed2 raw st1 st2 hst)

/-! ## C3: the dedup invariant -/

/-- `SELECT ... FROM sents WHERE subpath = ? AND h = ?` on one group's
store: the first (and, keys being unique, only) row with content hash `h`. -/
def lookupStore (h : List Nat) : GStore → Option SentRow
  | [] => none
  | (h', row) :: rest => if h' = h then some row else lookupStore h rest

/-- The upsert performed for one accepted (stripped) sentence. -/
def upsertStep (H : Hashers) (seed : Int) (st : GStore) (s : String) : GStore :=
  upsert (sent_hash H (norm_sent s)) (sent_randkey H seed (sent_hash H (norm_sent s))) s st

/-- The store obtained by upserting a list of accepted sentences in order. -/
def buildStore (H : Hashers) (seed : Int) (acc : List String) : GStore :=
  acc.foldl (upsertStep H seed) []

/-- Processing a raw stream is upserting exactly its accepted sentences. -/
theorem runGroup_eq_buildStore (H : Hashers) (seed : Int) (raws : List String) :
    runGroup H seed raws = buildStore H seed (acceptedOf raws) := by
  suffices hgen : ∀ st : GStore,
      raws.foldl (procSent H seed) st = (acceptedOf raws).foldl (upsertStep H seed) st from
    hgen []
  unfold acceptedOf
  induction raws with
  | nil => intro st; rfl
  | cons raw rest ih =>
    intro st
    rw [List.foldl_cons, List.filterMap_cons]
    unfold procSent
    cases acceptSent raw with
    | none => exact ih st
    | some s => exact ih (upsertStep H seed st s)

/-- How `upsert` changes a lookup: the looked-up key is affected only when
it is the upserted key, in which case a missing row appears with `cnt = 1`
and an existing row keeps its `r` and `text` and increments `cnt`. -/
theorem lookupStore_upsert (h h' : List Nat) (r : Int) (s : String) (st : GStore) :
    lookupStore h (upsert h' r s st) =
      if h' = h then
        match lookupStore h st with
        | none => some ⟨r, s, 1⟩
        | some row => some ⟨row.r, row.text, row.cnt + 1⟩
      else lookupStore h st := by
  induction st with
  | nil =>
    by_cases hk : h' = h
    · simp [upsert, lookupStore, hk]
    · simp [upsert, lookupStore, hk]
  | cons a rest ih =>
    obtain ⟨k, row⟩ := a
    by_cases hk1 : k = h'
    · rw [upsert, if_pos hk1]
      by_cases hk2 : h' = h
      · have : k = h := hk1.trans hk2
        simp [lookupStore, this, hk2]
      · have : ¬ k = h := fun hkh => hk2 (hk1 ▸ hkh)
        simp [lookupStore, this, hk2]
    · rw [upsert, if_neg hk1]
      by_cases hk3 : k = h
      · have : ¬ h' = h := fun hh => hk1 (hh ▸ hk3 ▸ rfl)
        simp [lookupStore, hk3, this]
      · simp [lookupStore, hk3, ih]

/-- The keys after an upsert: unchanged on conflict, the new key appended
otherwise. -/
theorem keys_upsert (h : List Nat) (r : Int) (s : String) (st : GStore) :
    (upsert h r s st).map Prod.fst =
      if h ∈ st.map Prod.fst then st.map Prod.fst else st.map Prod.fst ++ [h] := by
  induction st with
  | nil => simp [upsert]
  | cons a rest ih =>
    obtain ⟨k, row⟩ := a
    by_cases hk : k = h
    · simp [upsert, hk]
    · have : ¬ h = k := fun hh => hk hh.symm
      simp only [upsert, if_neg hk, List.map_cons, ih]
      split <;> rename_i hm <;> simp [List.mem_cons, this, hm]

/-- Store keys stay `Nodup` under upserts. -/
theorem keys_nodup_upsert (h : List Nat) (r : Int) (s : String) (st : GStore)
    (hst : (st.map Prod.fst).Nodup) : ((upsert h r s st).map Prod.fst).Nodup := by
  rw [keys_upsert]
  split
  · exact hst
  · rename_i hnot
    rw [List.nodup_append]
    refine ⟨hst, List.nodup_singleton _, ?_⟩
    intro x hx h2
    rw [List.mem_singleton] at h2
    subst h2
    exact hnot hx

/-- The store built from an accepted-sentence list has `Nodup` keys. -/
theorem buildStore_keys_nodup (H : Hashers) (seed : Int) (acc : List String) :
    ((buildStore H seed acc).map Prod.fst).Nodup := by
  induction acc using List.reverseRecOn with
  | nil => simp [buildStore]
  | append_singleton l a ih =>
    rw [buildStore, List.foldl_append, List.foldl_cons, List.foldl_nil]
    exact keys_nodup_upsert _ _ _ _ ih

/-- The content of the built store, one key at a time: the row under `h`
exists iff some processed sentence hashes to `h`, and then holds the order
key of `h`, the first such sentence and the number of such sentences. -/
theorem buildStore_lookup (H : Hashers) (seed : Int) (acc : List String) (h : List Nat) :
    lookupStore h (buildStore H seed acc) =
      match acc.filter (fun t => sent_hash H (norm_sent t) == h) with
      | [] => none
      | t :: ts => some ⟨sent_randkey H seed h, t, ts.length + 1⟩ := by
  induction acc using List.reverseRecOn with
  | nil => simp [buildStore, lookupStore]
  | append_singleton l a ih =>
    rw [buildStore, List.foldl_append, List.foldl_cons, List.foldl_nil]
    rw [show l.foldl (upsertStep H seed) [] = buildStore H seed l from rfl] at *
    rw [upsertStep, lookupStore_upsert, List.filter_append]
    by_cases hk : sent_hash H (norm_sent a) = h
    · rw [if_pos hk, ih]
      have ha : (List.filter (fun t => sent_hash H (norm_sent t) == h) [a]) = [a] := by
        simp [hk]
      rw [ha]
      cases hfl : List.filter (fun t => sent_hash H (norm_sent t) == h) l with
      | nil => simp [hk]
      | cons t ts => simp
    · rw [if_neg hk, ih]
      have ha : (List.filter (fun t => sent_hash H (norm_sent t) == h) [a]) = [] := by
        simp [hk]
      rw [ha, List.append_nil]

/-- With `Nodup` keys, a present key occupies exactly one row. -/
theorem filter_key_length_one (h : List Nat) (st : GStore)
    (hnd : (st.map Prod.fst).Nodup) (row : SentRow) (hlk : lookupStore h st = some row) :
    (st.filter (fun p => p.1 == h)).length = 1 := by
  induction st with
  | nil => simp [lookupStore] at hlk
  | cons a rest ih =>
    obtain ⟨k, rowk⟩ := a
    rw [List.map_cons, List.nodup_cons] at hnd
    by_cases hk : k = h
    · subst hk
      have hrest : rest.filter (fun p => p.1 == k) = [] := by
        rw [List.filter_eq_nil_iff]
        intro p hp hbeq
        have hpk : p.1 = k := by simpa using hbeq
        exact hnd.1 (List.mem_map.mpr ⟨p, hp, hpk⟩)
      simp [List.filter_cons, hrest]
    · rw [lookupStore, if_neg hk] at hlk
      have : ((k, rowk).1 == h) = false := by simpa using hk
      rw [List.filter_cons, this]
      exact ih hnd.2 hlk

/-- C3 (under collision-freedom of the content hash on the stream's
normalized forms): each accepted sentence's normalized form owns exactly one
row; that row's count is the number of accepted occurrences with that
normalized form, its text is the first-seen surface form and its order key
is the one computed at insertion — duplicates only increment `cnt`. -/
theorem C3_dedup (H : Hashers) (seed : Int) (raws : List String)
    (hinj : ∀ s1 ∈ acceptedOf raws, ∀ s2 ∈ acceptedOf raws,
      sent_hash H (norm_sent s1) = sent_hash H (norm_sent s2) → norm_sent s1 = norm_sent s2) :
    ∀ s ∈ acceptedOf raws,
      ((runGroup H seed raws).filter
          (fun p => p.1 == sent_hash H (norm_sent s))).length = 1
      ∧ lookupStore (sent_hash H (norm_sent s)) (runGroup H seed raws)
        = some ⟨sent_randkey H seed (sent_hash H (norm_sent s)),
            ((acceptedOf raws).filter (fun t => norm_sent t == norm_sent s)).headI,
            ((acceptedOf raws).filter (fun t => norm_sent t == norm_sent s)).length⟩ := by
  intro s hs
  have hfe : (acceptedOf raws).filter
        (fun t => sent_hash H (norm_sent t) == sent_hash H (norm_sent s))
      = (acceptedOf raws).filter (fun t => norm_sent t == norm_sent s) := by
    apply List.filter_congr
    intro t ht
    rw [Bool.eq_iff_iff, beq_iff_eq, beq_iff_eq]
    constructor
    · exact fun hh => hinj t ht s hs hh
    · exact fun hn => by rw [hn]
  have hsf : s ∈ (acceptedOf raws).filter (fun t => norm_sent t == norm_sent s) :=
    List.mem_filter.mpr ⟨hs, by simp⟩
  obtain ⟨t, ts, hcons⟩ : ∃ t ts,
      (acceptedOf raws).filter (fun t => norm_sent t == norm_sent s) = t :: ts := by
    cases hfl : (acceptedOf raws).filter (fun t => norm_sent t == norm_sent s) with
    | nil => rw [hfl] at hsf; simp at hsf
    | cons t ts => exact ⟨t, ts, rfl⟩
  have hlk : lookupStore (sent_hash H (norm_sent s)) (runGroup H seed raws)
      = some ⟨sent_randkey H seed (sent_hash H (norm_sent s)), t, ts.length + 1⟩ := by
    rw [runGroup_eq_buildStore, buildStore_lookup, hfe, hcons]
  constructor
  · rw [runGroup_eq_buildStore]
    exact filter_key_length_one _ _ (buildStore_keys_nodup H seed _) _
      (by rw [← runGroup_eq_buildStore]; exact hlk)
  · rw [hlk, hcons]
    simp

/-- Witness for `C3_dedup`: a three-sentence stream whose second sentence is
a (case/extra-whitespace) duplicate of the first — one row with `cnt = 2`,
keeping the first-seen surface form. -/
theorem C3_dedup_witness :
    ((runGroup idHashers 42
        ["Consiliul a aprobat bugetul local.",
         "  consiliul a aprobat   bugetul local.",
         "Alta propozitie suficient de buna."]).filter
          (fun p => p.1 == sent_hash idHashers
            (norm_sent "Consiliul a aprobat bugetul local."))).length = 1
    ∧ lookupStore (sent_hash idHashers (norm_sent "Consiliul a aprobat bugetul local."))
        (runGroup idHashers 42
          ["Consiliul a aprobat bugetul local.",
           "  consiliul a aprobat   bugetul local.",
           "Alta propozitie suficient de buna."])
      = some ⟨sent_randkey idHashers 42
            (sent_hash idHashers (norm_sent "Consiliul a aprobat bugetul local.")),
          ((acceptedOf
              ["Consiliul a aprobat bugetul local.",
               "  consiliul a aprobat   bugetul local.",
               "Alta propozitie suficient de buna."]).filter
            (fun t => norm_sent t == norm_sent "Consiliul a aprobat bugetul local.")).headI,
          ((acceptedOf
              ["Consiliul a aprobat bugetul local.",
               "  consiliul a aprobat   bugetul local.",
               "Alta propozitie suficient de buna."]).filter
            (fun t => norm_sent t == norm_sent "Consiliul a aprobat bugetul local.")).length⟩ :=
  C3_dedup idHashers 42
    ["Consiliul a aprobat bugetul local.",
     "  consiliul a aprobat   bugetul local.",
     "Alta propozitie suficient de buna."] (by decide)
    "Consiliul a aprobat bugetul local." (by decide)

/-! ## C5: quality-filter ordering -/

/-- C5: the quality filter's checks apply in the stated order with first
match winning — each reason fires exactly when its condition holds and every
earlier condition fails — and in particular a sentence of trimmed length 9
with 3 alphabetic characters is rejected as `too_short`, not
`too_few_letters`. -/
theorem C5_filter_order (s t : String)
    (h9 : (strip t).data.length = 9) (h3 : letterCount (strip t) = 3) :
    (is_good_sentence s = some .too_short ↔ (strip s).data.length < 10)
    ∧ (is_good_sentence s = some .too_few_letters ↔
        ¬ (strip s).data.length < 10 ∧ letterCount (strip s) < 7)
    ∧ (is_good_sentence s = some .too_few_words ↔
        ¬ (strip s).data.length < 10 ∧ ¬ letterCount (strip s) < 7
        ∧ ((splitWS (strip s)).filter hasAlpha).length < 2)
    ∧ (is_good_sentence s = some .mostly_non_letters ↔
        ¬ (strip s).data.length < 10 ∧ ¬ letterCount (strip s) < 7
        ∧ ¬ ((splitWS (strip s)).filter hasAlpha).length < 2
        ∧ 2 * letterCount (strip s) < (strip s).data.length)
    ∧ (is_good_sentence s = some .boilerplate ↔
        ¬ (strip s).data.length < 10 ∧ ¬ letterCount (strip s) < 7
        ∧ ¬ ((splitWS (strip s)).filter hasAlpha).length < 2
        ∧ ¬ 2 * letterCount (strip s) < (strip s).data.length
        ∧ norm_sent (strip s) ∈ bad_exact)
    ∧ (is_good_sentence s = none ↔
        ¬ (strip s).data.length < 10 ∧ ¬ letterCount (strip s) < 7
        ∧ ¬ ((splitWS (strip s)).filter hasAlpha).length < 2
        ∧ ¬ 2 * letterCount (strip s) < (strip s).data.length
        ∧ norm_sent (strip s) ∉ bad_exact)
    ∧ is_good_sentence t = some .too_short := by
  refine ⟨?_, ?_, ?_, ?_, ?_, ?_, ?_⟩
  case _ => simp only [is_good_sentence]; split_ifs <;> simp_all
  case _ => simp only [is_good_sentence]; split_ifs <;> simp_all
  case _ => simp only [is_good_sentence]; split_ifs <;> simp_all
  case _ => simp only [is_good_sentence]; split_ifs <;> simp_all
  case _ => simp only [is_good_sentence]; split_ifs <;> simp_all
  case _ => simp only [is_good_sentence]; split_ifs <;> simp_all
  case _ =>
    simp only [is_good_sentence]
    rw [if_pos (by omega)]

/-- Witness for `C5_filter_order`: `"ab, c 123"` has trimmed length 9 and
3 letters, and is rejected as `too_short`. -/
theorem C5_filter_order_witness : is_good_sentence "ab, c 123" = some .too_short :=
  (C5_filter_order "ab, c 123" "ab, c 123" (by decide) (by decide)).2.2.2.2.2.2

/-! ## C6, C7: group isolation and group-scoped reset -/

/-- A group's slice of the full table, with the group component of the key
dropped. -/
def gpart (g : String) (st : Store) : GStore :=
  (st.filter (fun p => p.1.1 == g)).map (fun p => (p.1.2, p.2))

/-- Tag a single-group row with its group, recovering a full-table row. -/
def tagRow (g : String) (q : List Nat × SentRow) : (String × List Nat) × SentRow :=
  ((g, q.1), q.2)

/-- An upsert for group `g` acts on `g`'s slice exactly as the single-group
upsert. -/
theorem gpart_upsertG_same (g : String) (h : List Nat) (r : Int) (s : String) (st : Store) :
    gpart g (upsertG g h r s st) = upsert h r s (gpart g st) := by
  induction st with
  | nil => simp [upsertG, gpart, upsert]
  | cons a rest ih =>
    obtain ⟨k, row⟩ := a
    by_cases hk : k = (g, h)
    · subst hk
      simp [upsertG, gpart, List.filter_cons, upsert]
    · rw [upsertG, if_neg hk]
      by_cases hg : k.1 = g
      · have hcond : ((k, row).1.1 == g) = true := by simpa using hg
        have hk2 : ¬ k.2 = h := fun h2 => hk (Prod.ext hg h2)
        calc gpart g ((k, row) :: upsertG g h r s rest)
            = (k.2, row) :: gpart g (upsertG g h r s rest) := by
              simp [gpart, List.filter_cons, hcond]
          _ = (k.2, row) :: upsert h r s (gpart g rest) := by rw [ih]
          _ = upsert h r s ((k.2, row) :: gpart g rest) := by rw [upsert, if_neg hk2]
          _ = upsert h r s (gpart g ((k, row) :: rest)) := by
              simp [gpart, List.filter_cons, hcond]
      · have hcond : ((k, row).1.1 == g) = false := by simpa using hg
        calc gpart g ((k, row) :: upsertG g h r s rest)
            = gpart g (upsertG g h r s rest) := by
              simp [gpart, List.filter_cons, hcond]
          _ = upsert h r s (gpart g rest) := ih
          _ = upsert h r s (gpart g ((k, row) :: rest)) := by
              simp [gpart, List.filter_cons, hcond]

/-- An upsert for group `g` leaves every other group's slice unchanged. -/
theorem gpart_upsertG_other (g g' : String) (hne : g' ≠ g) (h : List Nat) (r : Int)
    (s : String) (st : Store) : gpart g' (upsertG g h r s st) = gpart g' st := by
  induction st with
  | nil =>
    have : ((g, h).1 == g') = false := by simpa using fun hgg => hne hgg.symm
    simp [upsertG, gpart, this]
  | cons a rest ih =>
    obtain ⟨k, row⟩ := a
    by_cases hk : k = (g, h)
    · subst hk
      have : (((g, h), row).1.1 == g') = false := by simpa using fun hgg => hne hgg.symm
      simp [upsertG, gpart, List.filter_cons, this]
    · rw [upsertG, if_neg hk]
      by_cases hg : k.1 = g'
      · have hcond : ((k, row).1.1 == g') = true := by simpa using hg
        simp only [gpart, List.filter_cons, hcond, if_pos, List.map_cons]
        have := ih
        simp only [gpart] at this
        rw [this]
      · have hcond : ((k, row).1.1 == g') = false := by simpa using hg
        simp only [gpart, List.filter_cons, hcond]
        exact ih

/-- The non-`g` rows are untouched by an upsert for group `g`. -/
theorem othersOf_upsertG (g : String) (h : List Nat) (r : Int) (s : String) (st : Store) :
    (upsertG g h r s st).filter (fun p => !(p.1.1 == g))
      = st.filter (fun p => !(p.1.1 == g)) := by
  induction st with
  | nil => simp [upsertG]
  | cons a rest ih =>
    obtain ⟨k, row⟩ := a
    by_cases hk : k = (g, h)
    · subst hk
      simp [upsertG, List.filter_cons]
    · rw [upsertG, if_neg hk]
      rw [List.filter_cons, List.filter_cons]
      cases hcond : !((k, row).1.1 == g) with
      | false => exact ih
      | true => rw [ih]

/-- One group-`g` sentence-loop iteration on the full table restricts to the
single-group iteration on `g`'s slice. -/
theorem gpart_procSentG (H : Hashers) (seed : Int) (g : String) (st : Store) (raw : String) :
    gpart g (procSentG H seed g st raw) = procSent H seed (gpart g st) raw := by
  unfold procSentG procSent
  cases acceptSent raw with
  | none => rfl
  | some s => exact gpart_upsertG_same g _ _ s st

/-- Frame: processing a stream for group `g` never touches other rows. -/
theorem foldl_procSentG_others (H : Hashers) (seed : Int) (g : String) (raws : List String) :
    ∀ st : Store,
      (raws.foldl (procSentG H seed g) st).filter (fun p => !(p.1.1 == g))
        = st.filter (fun p => !(p.1.1 == g)) := by
  induction raws with
  | nil => intro st; rfl
  | cons raw rest ih =>
    intro st
    rw [List.foldl_cons, ih]
    unfold procSentG
    cases acceptSent raw with
    | none => rfl
    | some s => exact othersOf_upsertG g _ _ s st

/-- Processing a stream for group `g` on the full table restricts to the
single-group processing of `g`'s slice. -/
theorem foldl_procSentG_gpart (H : Hashers) (seed : Int) (g : String) (raws : List String) :
    ∀ st : Store,
      gpart g (raws.foldl (procSentG H seed g) st)
        = raws.foldl (procSent H seed) (gpart g st) := by
  induction raws with
  | nil => intro st; rfl
  | cons raw rest ih =>
    intro st
    rw [List.foldl_cons, List.foldl_cons, ih, gpart_procSentG]

/-- `g`'s slice of a freshly reset table is empty. -/
theorem gpart_resetGroup (g : String) (st : Store) : gpart g (resetGroup g st) = [] := by
  induction st with
  | nil => rfl
  | cons a rest ih =>
    obtain ⟨k, row⟩ := a
    rw [resetGroup, List.filter_cons]
    cases hcond : !((k, row).1.1 == g) with
    | false =>
      show gpart g (resetGroup g rest) = []
      exact ih
    | true =>
      have hk : ((k, row).1.1 == g) = false := by
        cases hval : ((k, row).1.1 == g) with
        | false => rfl
        | true => rw [hval] at hcond; simp at hcond
      show gpart g ((k, row) :: resetGroup g rest) = []
      simp only [gpart, List.filter_cons, hk]
      exact ih

/-- The rows of group `g` are exactly `g`'s slice, tagged with `g`. -/
theorem filter_eq_tag_gpart (g : String) (st : Store)  :
    st.filter (fun p => p.1.1 == g) = (gpart g st).map (tagRow g) := by
  induction st with
  | nil => rfl
  | cons a rest ih =>
    obtain ⟨⟨kg, kh⟩, row⟩ := a
    by_cases hg : kg = g
    · subst hg
      simp [gpart, List.filter_cons, tagRow] at ih ⊢
      exact ih
    · have hcond : (((kg, kh), row).1.1 == g) = false := by simpa using hg
      simp only [List.filter_cons, hcond, cond_false, gpart, List.map_cons]
      simp only [gpart] at ih
      exact ih

/-- Another group's slice is untouched by a whole group-`g` stream. -/
theorem foldl_procSentG_gpart_other (H : Hashers) (seed : Int) (g g' : String) (hne : g' ≠ g)
    (raws : List String) : ∀ st : Store,
      gpart g' (raws.foldl (procSentG H seed g) st) = gpart g' st := by
  induction raws with
  | nil => intro st; rfl
  | cons raw rest ih =>
    intro st
    rw [List.foldl_cons, ih]
    unfold procSentG
    cases acceptSent raw with
    | none => rfl
    | some s => exact gpart_upsertG_other g g' hne _ _ s st

/-- Another group's slice is untouched by `reset(g)`. -/
theorem gpart_resetGroup_other (g g' : String) (hne : g' ≠ g) (st : Store) :
    gpart g' (resetGroup g st) = gpart g' st := by
  induction st with
  | nil => rfl
  | cons a rest ih =>
    obtain ⟨⟨kg, kh⟩, row⟩ := a
    rw [resetGroup, List.filter_cons]
    by_cases hg : kg = g
    · subst hg
      have h1 : (!(((kg, kh), row) : (String × List Nat) × SentRow).1.1 == kg) = false := by simp
      have h2 : ((((kg, kh), row) : (String × List Nat) × SentRow).1.1 == g') = false := by
        simpa using fun hgg => hne hgg.symm
      rw [h1]
      show gpart g' (resetGroup kg rest) = _
      rw [ih]
      simp [gpart, List.filter_cons, h2]
    · have h1 : (!(((kg, kh), row) : (String × List Nat) × SentRow).1.1 == g) = true := by
        simpa using hg
      rw [h1]
      show gpart g' ((((kg, kh), row)) :: resetGroup g rest) = _
      by_cases hg' : kg = g'
      · subst hg'
        simp only [gpart, List.filter_cons, beq_self_eq_true, List.map_cons]
        simp only [gpart] at ih
        simp [ih]
      · have h2 : ((((kg, kh), row) : (String × List Nat) × SentRow).1.1 == g') = false := by
          simpa using hg'
        simp only [gpart, List.filter_cons, h2]
        simp only [gpart] at ih
        exact ih

/-- C7: a run on group `g` is group-scoped: every other group's rows are
left exactly as they were (`reset` deletes only `g`), and `g`'s partition
after the run is precisely the store rebuilt from this run's stream alone. -/
theorem C7_reset_group_scoped (H : Hashers) (seed : Int) (g : String) (st : Store)
    (raws : List String) :
    (runGroupG H seed g st raws).filter (fun p => !(p.1.1 == g))
      = st.filter (fun p => !(p.1.1 == g))
    ∧ (runGroupG H seed g st raws).filter (fun p => p.1.1 == g)
      = (runGroup H seed raws).map (tagRow g) := by
  constructor
  · unfold runGroupG
    rw [foldl_procSentG_others]
    unfold resetGroup
    rw [List.filter_filter]
    simp only [Bool.and_self]
  · unfold runGroupG
    rw [filter_eq_tag_gpart, foldl_procSentG_gpart, gpart_resetGroup]
    rfl

/-- C6: in a two-group run, each group's rows are exactly the store its own
stream builds, tagged with its own key — the same sentence text accepted in
both groups yields two independent records whose counts and order keys are
maintained separately. -/
theorem C6_cross_group (H : Hashers) (seed : Int) (g1 g2 : String)
    (raws1 raws2 : List String) (hne : g1 ≠ g2) :
    (runGroups H seed [(g1, raws1), (g2, raws2)]).filter (fun p => p.1.1 == g1)
      = (runGroup H seed raws1).map (tagRow g1)
    ∧ (runGroups H seed [(g1, raws1), (g2, raws2)]).filter (fun p => p.1.1 == g2)
      = (runGroup H seed raws2).map (tagRow g2) := by
  have hrun : runGroups H seed [(g1, raws1), (g2, raws2)]
      = runGroupG H seed g2 (runGroupG H seed g1 [] raws1) raws2 := rfl
  constructor
  · rw [hrun, filter_eq_tag_gpart]
    unfold runGroupG
    rw [foldl_procSentG_gpart_other H seed g2 g1 hne,
      gpart_resetGroup_other g2 g1 hne,
      foldl_procSentG_gpart, gpart_resetGroup]
    rfl
  · rw [hrun, filter_eq_tag_gpart]
    unfold runGroupG
    rw [foldl_procSentG_gpart, gpart_resetGroup]
    rfl

/-- Witness for `C6_cross_group`: the same sentence sent to groups `"a"` and
`"b"`. -/
theorem C6_cross_group_witness :
    (runGroups idHashers 42
        [("a", ["Consiliul a aprobat bugetul local."]),
         ("b", ["Consiliul a aprobat bugetul local."])]).filter (fun p => p.1.1 == "a")
      = (runGroup idHashers 42 ["Consiliul a aprobat bugetul local."]).map (tagRow "a")
    ∧ (runGroups idHashers 42
        [("a", ["Consiliul a aprobat bugetul local."]),
         ("b", ["Consiliul a aprobat bugetul local."])]).filter (fun p => p.1.1 == "b")
      = (runGroup idHashers 42 ["Consiliul a aprobat bugetul local."]).map (tagRow "b") :=
  C6_cross_group idHashers 42 "a" "b"
    ["Consiliul a aprobat bugetul local."] ["Consiliul a aprobat bugetul local."] (by decide)

/-! ## C8: trailing flush, conservation of sentences -/

/-- The chunks of the database packing loop concatenate to the pending
buffer followed by the (stripped) remaining stream: nothing is dropped and
nothing duplicated, and the last buffer is always flushed. -/
theorem dbPackGo_join (target : Nat) (sents : List String) :
    ∀ (cur : List String) (curW : Nat),
      (dbPackGo target sents cur curW).flatten = cur ++ sents.map strip := by
  induction sents with
  | nil =>
    intro cur curW
    cases cur with
    | nil => simp [dbPackGo]
    | cons a l => simp [dbPackGo]
  | cons t rest ih =>
    intro cur curW
    rw [dbPackGo]
    by_cases hw : target ≤ curW + word_count t
    · rw [if_pos hw]
      simp [List.flatten, ih]
    · rw [if_neg hw]
      rw [ih]
      simp

/-- Every chunk the database packing loop emits is non-empty. -/
theorem dbPackGo_chunks_ne_nil (target : Nat) (sents : List String) :
    ∀ (cur : List String) (curW : Nat) (c : List String),
      c ∈ dbPackGo target sents cur curW → c ≠ [] := by
  induction sents with
  | nil =>
    intro cur curW c hc
    cases hcur : cur.isEmpty with
    | true =>
      rw [dbPackGo] at hc
      simp [hcur] at hc
    | false =>
      rw [dbPackGo] at hc
      simp only [hcur, Bool.false_eq_true, if_false, List.mem_singleton] at hc
      subst hc
      intro hnil
      rw [hnil] at hcur
      simp at hcur
  | cons t rest ih =>
    intro cur curW c hc
    rw [dbPackGo] at hc
    by_cases hw : target ≤ curW + word_count t
    · rw [if_pos hw, List.mem_cons] at hc
      rcases hc with hc | hc
      · subst hc; simp
      · exact ih [] 0 c hc
    · rw [if_neg hw] at hc
      exact ih (cur ++ [strip t]) (curW + word_count t) c hc

/-- C8: after the ordered stream is exhausted the remaining non-empty buffer
is always emitted (even under target), so the emitted chunks are a partition
of the whole stream: their concatenation is exactly the (stripped) stream,
every chunk is non-empty, and hence every stored sentence appears in exactly
one output document. -/
theorem C8_trailing_flush (target : Nat) (sents : List String) :
    (dbPack target sents).flatten = sents.map strip
    ∧ (dbPack target sents).all (fun c => !c.isEmpty) = true := by
  constructor
  · exact dbPackGo_join target sents [] 0
  · rw [List.all_eq_true]
    intro c hc
    have := dbPackGo_chunks_ne_nil target sents [] 0 c hc
    simpa using this

/-! ## C9: malformed entries -/

/-- Per-entry contribution to the sentence stream: an empty (missing) text
contributes nothing, any other text its segmented sentences. -/
def entrySents (seg : String → List String) (e : Entry) : List String :=
  if e.text = "" then [] else seg e.text

/-- Dropping the empty texts of a batch and segmenting the rest is the
per-entry contribution, entry by entry. -/
theorem batch_texts_flatMap (seg : String → List String) (batch : List Entry) :
    ((batch.map Entry.text).filter (fun t => !(t == ""))).flatMap seg
      = batch.flatMap (entrySents seg) := by
  induction batch with
  | nil => rfl
  | cons e es ih =>
    by_cases he : e.text = ""
    · simp [List.filter_cons, he, entrySents, ih]
    · simp [List.filter_cons, he, entrySents, ih]

/-- Batch boundaries do not change the concatenated per-entry stream. -/
theorem chunkAux_flatMap {α β : Type _} (bs : Nat) (F : α → List β) (l : List α) :
    ∀ acc : List α,
      (chunkAux bs l acc).flatMap (fun b => b.flatMap F) = (acc ++ l).flatMap F := by
  induction l with
  | nil =>
    intro acc
    cases acc with
    | nil => simp [chunkAux]
    | cons a l => simp [chunkAux]
  | cons x xs ih =>
    intro acc
    by_cases hroom : acc.length + 1 < bs
    · rw [show chunkAux bs (x :: xs) acc = chunkAux bs xs (acc ++ [x]) by
        simp [chunkAux, hroom]]
      rw [ih (acc ++ [x])]
      simp
    · rw [show chunkAux bs (x :: xs) acc = (acc ++ [x]) :: chunkAux bs xs [] by
        simp [chunkAux, hroom]]
      rw [List.flatMap_cons, ih []]
      simp

/-- The group sentence stream is the per-entry stream: batching is
invisible. -/
theorem groupRawSents_eq (seg : String → List String) (bs : Nat) (es : List Entry) :
    groupRawSents seg bs es = es.flatMap (entrySents seg) := by
  unfold groupRawSents chunkList
  calc (chunkAux bs es []).flatMap
        (fun batch => ((batch.map Entry.text).filter (fun t => !(t == ""))).flatMap seg)
      = (chunkAux bs es []).flatMap (fun batch => batch.flatMap (entrySents seg)) := by
        simp only [batch_texts_flatMap]
    _ = ([] ++ es).flatMap (entrySents seg) := chunkAux_flatMap bs (entrySents seg) es []
    _ = es.flatMap (entrySents seg) := by simp

/-- Entries whose text is empty contribute nothing to the stream. -/
theorem flatMap_entrySents_filter (seg : String → List String) (es : List Entry) :
    (es.filter (fun e => !(e.text == ""))).flatMap (entrySents seg)
      = es.flatMap (entrySents seg) := by
  induction es with
  | nil => rfl
  | cons e rest ih =>
    by_cases he : e.text = ""
    · simp [List.filter_cons, he, entrySents, ih]
    · simp [List.filter_cons, he, entrySents, ih]

/-- C9 (amended): an entry with missing/empty raw text yields no sentences —
the per-batch text filter removes it, so it contributes nothing to any
group's records or outputs — but an entry missing its relative-path metadata
is NOT skipped: `rel_path` falls back to `""` and the entry is routed to the
synthetic `"(root)"` group, where its sentences are processed and stored
normally. -/
theorem C9_malformed (seg : String → List String) (bs : Nat) (es : List Entry)
    (level : Int) (e : Entry) (hbs : 0 < bs) (hmal : e.relPath = none) :
    groupRawSents seg bs es = ((es.map Entry.text).filter (fun t => !(t == ""))).flatMap seg
    ∧ groupRawSents seg bs (es.filter (fun e0 => !(e0.text == ""))) = groupRawSents seg bs es
    ∧ entryGroup level e = "(root)" := by
  refine ⟨?_, ?_, ?_⟩
  · rw [groupRawSents_eq, batch_texts_flatMap]
  · rw [groupRawSents_eq, groupRawSents_eq, flatMap_entrySents_filter]
  · unfold entryGroup
    rw [hmal]
    rfl

/-- Witness for `C9_malformed` at a concrete corpus: one empty-text entry,
one normal entry, and one entry without `rel_path`. -/
theorem C9_malformed_witness :
    groupRawSents (fun t => [t]) 512 [⟨"", some "a/x.json"⟩, ⟨"Un document bun.", some "a/y.json"⟩]
      = (([⟨"", some "a/x.json"⟩, ⟨"Un document bun.", some "a/y.json"⟩].map Entry.text).filter
          (fun t => !(t == ""))).flatMap (fun t => [t])
    ∧ groupRawSents (fun t => [t]) 512
        ([⟨"", some "a/x.json"⟩, ⟨"Un document bun.", some "a/y.json"⟩].filter
          (fun e0 => !(e0.text == "")))
      = groupRawSents (fun t => [t]) 512
          [⟨"", some "a/x.json"⟩, ⟨"Un document bun.", some "a/y.json"⟩]
    ∧ entryGroup (-1) ⟨"Ceva text.", none⟩ = "(root)" :=
  C9_malformed (fun t => [t]) 512 [⟨"", some "a/x.json"⟩, ⟨"Un document bun.", some "a/y.json"⟩]
    (-1) ⟨"Ceva text.", none⟩ (by decide) rfl

/-- C9 counterexample: a single entry with well-formed text but no
`rel_path` metadata.  The claim says such an entry is silently skipped and
contributes nothing; the full run instead stores its sentence under the
`"(root)"` group. -/
theorem C9_counterexample :
    (runFull idHashers (fun t => [t]) 42 (-1) 512
        [⟨"Aceasta propozitie este valida.", none⟩]).map (fun p => (p.1.1, p.2.text, p.2.cnt))
      = [("(root)", "Aceasta propozitie este valida.", 1)] := by
  decide

/-! ## C10: diagnostics on an empty group -/

/-- `upsert` never returns an empty store. -/
theorem upsert_ne_nil (h : List Nat) (r : Int) (s : String) (st : GStore) :
    upsert h r s st ≠ [] := by
  cases st with
  | nil => simp [upsert]
  | cons a rest =>
    obtain ⟨k, row⟩ := a
    rw [upsert]
    split <;> simp

/-- Upserting over a non-empty store keeps it non-empty. -/
theorem foldl_upsertStep_ne_nil (H : Hashers) (seed : Int) (acc : List String) :
    ∀ st : GStore, st ≠ [] → acc.foldl (upsertStep H seed) st ≠ [] := by
  induction acc with
  | nil => exact fun st hst => hst
  | cons a rest ih =>
    intro st _hst
    rw [List.foldl_cons]
    exact ih _ (upsert_ne_nil _ _ _ st)

/-- The built store is empty exactly when nothing was accepted. -/
theorem buildStore_eq_nil_iff (H : Hashers) (seed : Int) (acc : List String) :
    buildStore H seed acc = [] ↔ acc = [] := by
  cases acc with
  | nil => simp [buildStore]
  | cons a rest =>
    constructor
    · intro hnil
      exfalso
      refine foldl_upsertStep_ne_nil H seed rest (upsertStep H seed [] a) ?_ ?_
      · exact upsert_ne_nil _ _ _ []
      · exact hnil
    · intro hc
      exact absurd hc (by simp)

/-- Insertion never yields an empty list. -/
theorem insertLe_ne_nil (le : α → α → Bool) (x : α) (l : List α) :
    insertLe le x l ≠ [] := by
  cases l with
  | nil => simp [insertLe]
  | cons y ys =>
    rw [insertLe]
    split <;> simp

/-- Sorting preserves emptiness. -/
theorem sortLe_eq_nil_iff (le : α → α → Bool) (l : List α) :
    sortLe le l = [] ↔ l = [] := by
  cases l with
  | nil => simp [sortLe]
  | cons a t =>
    constructor
    · intro hnil
      exact absurd hnil (insertLe_ne_nil le a (sortLe le t))
    · intro hc
      exact absurd hc (by simp)

/-- C10: the diagnostics step succeeds exactly when the group stored at
least one sentence; when every raw sentence was empty or rejected the
`top100[0]` access has nothing to index (modelled as `none`), raising the
`IndexError` that aborts the run instead of writing empty reports. -/
theorem C10_empty_group_aborts (H : Hashers) (seed : Int) (raws : List String) :
    mostCommon (runGroup H seed raws) = none ↔ acceptedOf raws = [] := by
  rw [runGroup_eq_buildStore]
  unfold mostCommon top_dups
  rw [List.head?_eq_none_iff]
  constructor
  · intro hnil
    have h1 : sortLe (fun a b => decide (b.2.cnt ≤ a.2.cnt)) (buildStore H seed (acceptedOf raws))
        = [] := by
      by_contra hne
      cases hs : sortLe (fun a b => decide (b.2.cnt ≤ a.2.cnt))
          (buildStore H seed (acceptedOf raws)) with
      | nil => exact hne hs
      | cons a t => rw [hs] at hnil; simp at hnil
    rw [sortLe_eq_nil_iff] at h1
    exact (buildStore_eq_nil_iff H seed _).mp h1
  · intro hacc
    rw [hacc]
    rfl
